import Mathlib

/-
  Shallow embedding of the AirCat playback daemon core:
  * src/modules/files.c — the file-source playback engine (playlist state
    machine, current/previous stream handoff, next/prev scanning loops,
    HTTP endpoint wrappers), and
  * src/src/main.c — the module-startup loop (open, close-on-failure,
    URL-route registration).

  External facades (output_*, file_*, json_*) are modelled by explicit
  accounting: output streams and open decoder files are lists of ids,
  `output_add_stream` / `file_open` allocate fresh ids, and
  `output_remove_stream` / `file_close` deregister one id.  Whether a
  media path can be opened, and what metadata parsing yields, are
  environment parameters (`Env`), since file.c is outside the core.
-/

namespace AirCat

/-- Accounting model for `output_remove_stream` and `file_close`: both
deregister one id from the facade's list of live ids; passing NULL
(`none`) is a no-op (`file_close(NULL)` is called unconditionally in
files.c, e.g. files.c:141, and must be harmless). -/
def releaseId (l : List Nat) : Option Nat → List Nat
  | some i => l.filter (· ≠ i)
  | none => l

/-- One playlist entry (`struct files_playlist`, files.c:34): the
resolved filename plus parsed metadata (`file_format_parse` result,
`none` when parsing failed / returned NULL). -/
structure Entry where
  filename : String
  format : Option String
deriving DecidableEq

/-- Engine state (`struct files_handle`, files.c:39), with the external
facades' observable effects folded in: `registered` is the list of
stream ids currently registered at the Output facade by this engine,
`openFiles` the list of decoder-file ids currently open; `nextStream` /
`nextFile` are fresh-id counters.  `playlist_len` is kept as a separate
`Int` field mirroring the C `int playlist_len`, because `files_remove`
decrements it unconditionally — even for an out-of-range index, where
the entry list itself is unchanged (the C additionally frees memory past
the valid region and performs a negative-length `memmove` there, which
is undefined behavior; the model keeps the well-defined part, the
unconditional decrement). -/
structure EngineState where
  registered : List Nat
  openFiles : List Nat
  nextStream : Nat
  nextFile : Nat
  file : Option Nat
  stream : Option Nat
  prev_file : Option Nat
  prev_stream : Option Nat
  is_playing : Bool
  playlist : List Entry
  playlist_len : Int
  playlist_cur : Int
  path : String
deriving DecidableEq

/-- Environment: which paths `file_open` can open, and what
`file_format_parse` returns (none = NULL). -/
structure Env where
  openable : String → Bool
  parse : String → Option String

/-- `h->playlist[i]` read as data; indices used by the engine are kept
in range by the callers proved below (out-of-range access in the C is
undefined behavior). -/
def entryAt (l : List Entry) (i : Int) : Entry :=
  l.getD i.toNat ⟨"", none⟩

/-- files_new_player (files.c:108): open the file at `playlist[cur]`;
on success register a new output stream and play it (returns 0); on
failure close the partial handle and null `file`/`stream` (returns -1).
`file_open` is modelled as allocating a fresh file id exactly when the
path is openable. -/
def files_new_player (env : Env) (s : EngineState) : Int × EngineState :=
  if env.openable (entryAt s.playlist s.playlist_cur).filename then
    let fid := s.nextFile
    let s1 := { s with file := some fid, openFiles := s.openFiles ++ [fid],
                       nextFile := s.nextFile + 1 }
    let sid := s1.nextStream
    (0, { s1 with stream := some sid, registered := s1.registered ++ [sid],
                  nextStream := sid + 1 })
  else
    (-1, { s with file := none, stream := none })

/-- The scanning loop of files_play_next (files.c:148-163):
`while(cur <= len) { cur++; if(cur >= len) {cur=-1; stream=file=NULL;
break;} if(new_player != 0) continue; break; }`.  The loop runs at most
`len - cur` times (the index strictly increases and the loop exits once
it reaches `len`), so it is embedded structurally on a fuel argument;
the callers pass `(len - cur).toNat + 1`, which the lemmas below show
is never exhausted. -/
def scanNextAux (env : Env) : Nat → EngineState → EngineState
  | 0, s => s
  | fuel + 1, s =>
    if s.playlist_cur ≤ s.playlist_len then
      let s1 := { s with playlist_cur := s.playlist_cur + 1 }
      if s1.playlist_len ≤ s1.playlist_cur then
        { s1 with playlist_cur := -1, stream := none, file := none }
      else
        let r := files_new_player env s1
        if r.1 = 0 then r.2 else scanNextAux env fuel r.2
    else s

/-- The scanning loop of files_play_prev (files.c:180-195):
`while(cur >= 0) { cur--; if(cur < 0) {cur=-1; stream=file=NULL; break;}
if(new_player != 0) continue; break; }`, embedded like `scanNextAux`
(at most `cur + 1` iterations). -/
def scanPrevAux (env : Env) : Nat → EngineState → EngineState
  | 0, s => s
  | fuel + 1, s =>
    if 0 ≤ s.playlist_cur then
      let s1 := { s with playlist_cur := s.playlist_cur - 1 }
      if s1.playlist_cur < 0 then
        { s1 with playlist_cur := -1, stream := none, file := none }
      else
        let r := files_new_player env s1
        if r.1 = 0 then r.2 else scanPrevAux env fuel r.2
    else s

/-- files_play_next (files.c:134): release the previous stream/file
pair, move the current pair into the previous slot, then scan forward
for the next openable entry (landing in STOPPED at the boundary). -/
def files_play_next (env : Env) (s : EngineState) : EngineState :=
  let s1 := { s with registered := releaseId s.registered s.prev_stream,
                     openFiles := releaseId s.openFiles s.prev_file }
  let s2 := { s1 with prev_stream := s1.stream, prev_file := s1.file }
  scanNextAux env ((s2.playlist_len - s2.playlist_cur).toNat + 1) s2

/-- files_play_prev (files.c:166): same prologue as files_play_next,
then scan backward. -/
def files_play_prev (env : Env) (s : EngineState) : EngineState :=
  let s1 := { s with registered := releaseId s.registered s.prev_stream,
                     openFiles := releaseId s.openFiles s.prev_file }
  let s2 := { s1 with prev_stream := s1.stream, prev_file := s1.file }
  scanPrevAux env ((s2.playlist_cur + 1).toNat + 1) s2

/-- files_stop (files.c:404): clear the playing flag, remove both
streams from the output, close both files, reset `playlist_cur = -1`.
The C function always returns 0, so only the state is modelled. -/
def files_stop (s : EngineState) : EngineState :=
  { s with is_playing := false,
           registered := releaseId (releaseId s.registered s.stream) s.prev_stream,
           stream := none, prev_stream := none,
           openFiles := releaseId (releaseId s.openFiles s.file) s.prev_file,
           file := none, prev_file := none,
           playlist_cur := -1 }

/-- files_next (files.c:465): under the guard `cur != -1 && cur+1 <=
len`, advance via files_play_next and then immediately release the
(just superseded) previous pair.  Always returns 0. -/
def files_next (env : Env) (s : EngineState) : EngineState :=
  if s.playlist_cur ≠ -1 ∧ s.playlist_cur + 1 ≤ s.playlist_len then
    let s1 := files_play_next env s
    { s1 with registered := releaseId s1.registered s1.prev_stream,
              openFiles := releaseId s1.openFiles s1.prev_file,
              prev_stream := none, prev_file := none }
  else s

/-- files_prev (files.c:438): under the guard `cur != -1 && cur >= 0`,
retreat via files_play_prev and release the previous pair. -/
def files_prev (env : Env) (s : EngineState) : EngineState :=
  if s.playlist_cur ≠ -1 ∧ 0 ≤ s.playlist_cur then
    let s1 := files_play_prev env s
    { s1 with registered := releaseId s1.registered s1.prev_stream,
              openFiles := releaseId s1.openFiles s1.prev_file,
              prev_stream := none, prev_file := none }
  else s

/-- files_add (files.c:236): build `path ++ "/" ++ filename`, append an
entry with eagerly parsed metadata, increment `playlist_len`, return
the new index (`playlist_len - 1` after the increment).  The C only
fails on a NULL filename or allocation failure, neither of which the
model represents. -/
def files_add (env : Env) (s : EngineState) (filename : String) : Int × EngineState :=
  let real_path := s.path ++ "/" ++ filename
  let s1 := { s with playlist := s.playlist ++ [⟨real_path, env.parse real_path⟩],
                     playlist_len := s.playlist_len + 1 }
  (s1.playlist_len - 1, s1)

/-- files_remove (files.c:283): if `index` is current, stop first (the
C then redundantly re-sets `cur = -1`, which files_stop already did);
if current is above `index`, shift it down.  Then the entry at `index`
is freed, later entries are shifted down (`memmove`) and
`playlist_len` is decremented — all WITHOUT any bounds check on
`index` (the HTTP wrapper only rejects negative indices).  For
`index >= playlist_len` the C frees memory past the valid entries and
calls `memmove` with a negative (hence huge unsigned) byte count —
undefined behavior; the model keeps the well-defined part: the entry
list is unchanged and `playlist_len` is still decremented.  Always
returns 0. -/
def files_remove (s : EngineState) (index : Int) : Int × EngineState :=
  let s1 :=
    if s.playlist_cur = index then files_stop s
    else if index < s.playlist_cur then { s with playlist_cur := s.playlist_cur - 1 }
    else s
  (0, { s1 with playlist := s1.playlist.take index.toNat ++ s1.playlist.drop (index.toNat + 1),
                playlist_len := s1.playlist_len - 1 })

/-- files_flush (files.c:320): stop, then free every entry and reset
length and index. -/
def files_flush (s : EngineState) : EngineState :=
  { files_stop s with playlist := [], playlist_len := 0, playlist_cur := -1 }

/-- files_play (files.c:340): resolve index -1 to the last-played index
(or 0 if none); reject `index >= playlist_len` with no state change;
otherwise stop, set `cur = index`, and start a new player — on failure
reset `cur = -1` and clear the playing flag, on success set it. -/
def files_play (env : Env) (s : EngineState) (index : Int) : Int × EngineState :=
  let index := if index = -1 then (if s.playlist_cur < 0 then 0 else s.playlist_cur)
               else index
  if s.playlist_len ≤ index then (-1, s)
  else
    let s1 := { files_stop s with playlist_cur := index }
    let r := files_new_player env s1
    if r.1 = 0 then (0, { r.2 with is_playing := true })
    else (-1, { r.2 with playlist_cur := -1, is_playing := false })

/-- files_pause (files.c:376): if a current stream exists, toggle the
playing flag (and call the output facade's play/pause primitive, which
does not change stream registration). -/
def files_pause (s : EngineState) : EngineState :=
  if s.stream.isSome then { s with is_playing := !s.is_playing } else s

/-- State after files_open + files_set_config (files.c:67, 755): empty
playlist, `cur = -1`, nothing playing, no streams or files; the root
path comes from the config section or defaults to "/var/aircat/files". -/
def initState (cfg : Option String) : EngineState :=
  { registered := [], openFiles := [], nextStream := 0, nextFile := 0,
    file := none, stream := none, prev_file := none, prev_stream := none,
    is_playing := false, playlist := [], playlist_len := 0, playlist_cur := -1,
    path := cfg.getD "/var/aircat/files" }

/-- files_httpd_playlist_play (files.c:847): reject a negative index
with 400, map a files_play failure to 500, success to 200. -/
def files_httpd_playlist_play (env : Env) (s : EngineState) (idx : Int) :
    Nat × EngineState :=
  if idx < 0 then (400, s)
  else
    let r := files_play env s idx
    if r.1 ≠ 0 then (500, r.2) else (200, r.2)

/-- files_httpd_playlist_remove (files.c:871): reject a negative index
with 400; otherwise call files_remove (which always returns 0, so the
500 branch is dead and the reply is 200). -/
def files_httpd_playlist_remove (s : EngineState) (idx : Int) :
    Nat × EngineState :=
  if idx < 0 then (400, s)
  else
    let r := files_remove s idx
    if r.1 ≠ 0 then (500, r.2) else (200, r.2)

/-- Engine states reachable from startup through the operations the
daemon can invoke on the engine: the HTTP handlers (files.c:830-1038,
whose only argument guards are `idx >= 0` for playlist/remove and
playlist/play, and `idx = -1` or an add-result for /play) and the
watcher advance (files.c:198-226, whose lock-held guard is
`cur != -1 && cur+1 <= len` with a non-NULL current file; reaching
end-of-stream is environmental, so the advance is modelled as possible
whenever the guard holds). -/
inductive Reachable (env : Env) : EngineState → Prop
  | init (cfg : Option String) : Reachable env (initState cfg)
  | add {s} (f : String) : Reachable env s → Reachable env (files_add env s f).2
  | remove {s} (i : Int) : 0 ≤ i → Reachable env s → Reachable env (files_remove s i).2
  | flush {s} : Reachable env s → Reachable env (files_flush s)
  | play {s} (i : Int) : -1 ≤ i → Reachable env s → Reachable env (files_play env s i).2
  | pause {s} : Reachable env s → Reachable env (files_pause s)
  | stop {s} : Reachable env s → Reachable env (files_stop s)
  | next {s} : Reachable env s → Reachable env (files_next env s)
  | prev {s} : Reachable env s → Reachable env (files_prev env s)
  | watch {s} : s.playlist_cur ≠ -1 → s.playlist_cur + 1 ≤ s.playlist_len →
      s.file.isSome = true → Reachable env s → Reachable env (files_play_next env s)

/-- Like `Reachable`, but every remove index is additionally required
to be within `[0, playlist_len)` — the restriction under which the
`cur` range invariant actually holds. -/
inductive ReachableSafe (env : Env) : EngineState → Prop
  | init (cfg : Option String) : ReachableSafe env (initState cfg)
  | add {s} (f : String) : ReachableSafe env s → ReachableSafe env (files_add env s f).2
  | remove {s} (i : Int) : 0 ≤ i → i < s.playlist_len → ReachableSafe env s →
      ReachableSafe env (files_remove s i).2
  | flush {s} : ReachableSafe env s → ReachableSafe env (files_flush s)
  | play {s} (i : Int) : -1 ≤ i → ReachableSafe env s →
      ReachableSafe env (files_play env s i).2
  | pause {s} : ReachableSafe env s → ReachableSafe env (files_pause s)
  | stop {s} : ReachableSafe env s → ReachableSafe env (files_stop s)
  | next {s} : ReachableSafe env s → ReachableSafe env (files_next env s)
  | prev {s} : ReachableSafe env s → ReachableSafe env (files_prev env s)
  | watch {s} : s.playlist_cur ≠ -1 → s.playlist_cur + 1 ≤ s.playlist_len →
      s.file.isSome = true → ReachableSafe env s →
      ReachableSafe env (files_play_next env s)

/-- Module descriptor as seen by the startup loop of main.c: whether
`open`/`close`/`urls` are non-NULL, and the status `open` returns. -/
structure ModuleDesc where
  name : String
  hasOpen : Bool
  openResult : Int
  hasClose : Bool
  hasUrls : Bool
deriving DecidableEq

/-- Observable effects of the startup loop: for each module whose open
was attempted, whether its handle is non-null afterwards; which modules
had `close` invoked from the failure path; which modules had their URL
table passed to `httpd_add_urls`. -/
structure StartupState where
  handles : List (String × Bool)
  closeCalls : List String
  routes : List String
deriving DecidableEq

/-- One iteration of the module-open loop (main.c:189-215): modules
without `open` are skipped entirely (`continue`, main.c:192-193); on
`open(...) != 0` the failure is logged, `close` is called if defined
(the C passes `&handle` where `close` expects the handle — a further
slip, not modelled beyond "close was invoked") and the handle is set to
NULL; then — regardless of whether open succeeded — the module's URL
table, when non-NULL, is registered with the HTTP server
(main.c:211-214). -/
def openModuleStep (acc : StartupState) (m : ModuleDesc) : StartupState :=
  if m.hasOpen then
    if m.openResult ≠ 0 then
      { handles := acc.handles ++ [(m.name, false)],
        closeCalls := acc.closeCalls ++ (if m.hasClose then [m.name] else []),
        routes := acc.routes ++ (if m.hasUrls then [m.name] else []) }
    else
      { handles := acc.handles ++ [(m.name, true)],
        closeCalls := acc.closeCalls,
        routes := acc.routes ++ (if m.hasUrls then [m.name] else []) }
  else acc

/-- The whole module-open loop of main (main.c:189-215). -/
def openModules (mods : List ModuleDesc) : StartupState :=
  mods.foldl openModuleStep ⟨[], [], []⟩

/-- Stream/resource accounting invariant of the playback session: the
ids registered at the Output facade are exactly the current and the
previous stream, the open decoder files are exactly the current and
the previous resource, all ids are below the fresh-id counters, and no
id is registered twice. -/
def InvCore (s : EngineState) : Prop :=
  s.registered = s.prev_stream.toList ++ s.stream.toList ∧
  s.openFiles = s.prev_file.toList ++ s.file.toList ∧
  (∀ i ∈ s.registered, i < s.nextStream) ∧
  (∀ i ∈ s.openFiles, i < s.nextFile) ∧
  s.registered.Nodup ∧ s.openFiles.Nodup

theorem filter_ne_self (l : List Nat) (i : Nat) (h : i ∉ l) : l.filter (· ≠ i) = l := by
  apply List.filter_eq_self.mpr
  intro a ha
  simp only [ne_eq, decide_eq_true_eq]
  exact fun hai => h (hai ▸ ha)

theorem releaseId_self (a : Option Nat) : releaseId a.toList a = [] := by
  cases a <;> simp [releaseId, List.filter]

theorem releaseId_left (a b : Option Nat) (h : (a.toList ++ b.toList).Nodup) :
    releaseId (a.toList ++ b.toList) a = b.toList := by
  cases a with
  | none => rfl
  | some p =>
    cases b with
    | none => simp [releaseId, List.filter]
    | some c =>
      have hpc : p ≠ c := by simp [List.nodup_cons] at h; exact h
      simp [releaseId, List.filter, hpc, Ne.symm hpc]

theorem releaseId_right (a b : Option Nat) (h : (a.toList ++ b.toList).Nodup) :
    releaseId (a.toList ++ b.toList) b = a.toList := by
  cases b with
  | none => simp [releaseId]
  | some c =>
    cases a with
    | none => simp [releaseId, List.filter]
    | some p =>
      have hpc : p ≠ c := by simp [List.nodup_cons] at h; exact h
      simp [releaseId, List.filter, hpc, Ne.symm hpc]



theorem files_stop_registered (s : EngineState)
    (hr : s.registered = s.prev_stream.toList ++ s.stream.toList)
    (hnd : s.registered.Nodup) : (files_stop s).registered = [] := by
  show releaseId (releaseId s.registered s.stream) s.prev_stream = []
  rw [hr, releaseId_right _ _ (hr ▸ hnd), releaseId_self]

theorem files_stop_openFiles (s : EngineState)
    (hf : s.openFiles = s.prev_file.toList ++ s.file.toList)
    (hnd : s.openFiles.Nodup) : (files_stop s).openFiles = [] := by
  show releaseId (releaseId s.openFiles s.file) s.prev_file = []
  rw [hf, releaseId_right _ _ (hf ▸ hnd), releaseId_self]

theorem files_stop_invCore (s : EngineState) (h : InvCore s) : InvCore (files_stop s) := by
  obtain ⟨hr, hf, _, _, hnd, hndf⟩ := h
  refine ⟨?_, ?_, ?_, ?_, ?_, ?_⟩
  · rw [files_stop_registered s hr hnd]; rfl
  · rw [files_stop_openFiles s hf hndf]; rfl
  · rw [files_stop_registered s hr hnd]; simp
  · rw [files_stop_openFiles s hf hndf]; simp
  · rw [files_stop_registered s hr hnd]; simp
  · rw [files_stop_openFiles s hf hndf]; simp

theorem scanNextAux_stop_eq (env : Env) (n : Nat) (s : EngineState)
    (h1 : s.playlist_cur ≤ s.playlist_len) (h2 : s.playlist_len ≤ s.playlist_cur + 1) :
    scanNextAux env (n + 1) s = { s with playlist_cur := -1, stream := none, file := none } := by
  simp only [scanNextAux]
  rw [if_pos h1, if_pos h2]

theorem scanNextAux_found_eq (env : Env) (n : Nat) (s : EngineState)
    (h1 : s.playlist_cur + 1 < s.playlist_len)
    (hop : env.openable (entryAt s.playlist (s.playlist_cur + 1)).filename = true) :
    scanNextAux env (n + 1) s =
      { s with playlist_cur := s.playlist_cur + 1,
               file := some s.nextFile, openFiles := s.openFiles ++ [s.nextFile],
               nextFile := s.nextFile + 1,
               stream := some s.nextStream, registered := s.registered ++ [s.nextStream],
               nextStream := s.nextStream + 1 } := by
  simp only [scanNextAux]
  rw [if_pos (by omega), if_neg (by omega)]
  simp [files_new_player, hop]

theorem scanNextAux_skip_eq (env : Env) (n : Nat) (s : EngineState)
    (h1 : s.playlist_cur + 1 < s.playlist_len)
    (hop : env.openable (entryAt s.playlist (s.playlist_cur + 1)).filename = false) :
    scanNextAux env (n + 1) s =
      scanNextAux env n { s with playlist_cur := s.playlist_cur + 1,
                                 file := none, stream := none } := by
  simp only [scanNextAux]
  rw [if_pos (by omega), if_neg (by omega)]
  simp [files_new_player, hop]

theorem scanPrevAux_stop_eq (env : Env) (n : Nat) (s : EngineState)
    (h1 : 0 ≤ s.playlist_cur) (h2 : s.playlist_cur ≤ 0) :
    scanPrevAux env (n + 1) s = { s with playlist_cur := -1, stream := none, file := none } := by
  simp only [scanPrevAux]
  rw [if_pos h1, if_pos (by omega)]

theorem scanPrevAux_found_eq (env : Env) (n : Nat) (s : EngineState)
    (h1 : 1 ≤ s.playlist_cur)
    (hop : env.openable (entryAt s.playlist (s.playlist_cur - 1)).filename = true) :
    scanPrevAux env (n + 1) s =
      { s with playlist_cur := s.playlist_cur - 1,
               file := some s.nextFile, openFiles := s.openFiles ++ [s.nextFile],
               nextFile := s.nextFile + 1,
               stream := some s.nextStream, registered := s.registered ++ [s.nextStream],
               nextStream := s.nextStream + 1 } := by
  simp only [scanPrevAux]
  rw [if_pos (by omega), if_neg (by omega)]
  simp [files_new_player, hop]

theorem scanPrevAux_skip_eq (env : Env) (n : Nat) (s : EngineState)
    (h1 : 1 ≤ s.playlist_cur)
    (hop : env.openable (entryAt s.playlist (s.playlist_cur - 1)).filename = false) :
    scanPrevAux env (n + 1) s =
      scanPrevAux env n { s with playlist_cur := s.playlist_cur - 1,
                                 file := none, stream := none } := by
  simp only [scanPrevAux]
  rw [if_pos (by omega), if_neg (by omega)]
  simp [files_new_player, hop]

theorem scanNextAux_cur (env : Env) (fuel : Nat) :
    ∀ (s : EngineState), (s.playlist_len - s.playlist_cur).toNat < fuel →
    s.playlist_cur < s.playlist_len →
    (scanNextAux env fuel s).playlist = s.playlist ∧
    (scanNextAux env fuel s).playlist_len = s.playlist_len ∧
    ((scanNextAux env fuel s).playlist_cur = -1 ∨
      (s.playlist_cur < (scanNextAux env fuel s).playlist_cur ∧
       (scanNextAux env fuel s).playlist_cur < s.playlist_len)) := by
  induction fuel with
  | zero => intro s h1 h2; omega
  | succ n ih =>
    intro s h1 h2
    by_cases hend : s.playlist_len ≤ s.playlist_cur + 1
    · rw [scanNextAux_stop_eq env n s (by omega) hend]
      exact ⟨rfl, rfl, Or.inl rfl⟩
    · by_cases hop : env.openable (entryAt s.playlist (s.playlist_cur + 1)).filename = true
      · rw [scanNextAux_found_eq env n s (by omega) hop]
        refine ⟨rfl, rfl, Or.inr ⟨?_, ?_⟩⟩ <;> dsimp only <;> omega
      · have e := ih { s with playlist_cur := s.playlist_cur + 1, file := none, stream := none } (by dsimp only; omega) (by dsimp only; omega)
        rw [scanNextAux_skip_eq env n s (by omega) (by simpa using hop)]
        dsimp only at e
        obtain ⟨e1, e2, e3⟩ := e
        exact ⟨e1, e2, by omega⟩

theorem scanPrevAux_cur (env : Env) (fuel : Nat) :
    ∀ (s : EngineState), (s.playlist_cur + 1).toNat < fuel →
    0 ≤ s.playlist_cur →
    (scanPrevAux env fuel s).playlist = s.playlist ∧
    (scanPrevAux env fuel s).playlist_len = s.playlist_len ∧
    ((scanPrevAux env fuel s).playlist_cur = -1 ∨
      (0 ≤ (scanPrevAux env fuel s).playlist_cur ∧
       (scanPrevAux env fuel s).playlist_cur < s.playlist_cur)) := by
  induction fuel with
  | zero => intro s h1 h2; omega
  | succ n ih =>
    intro s h1 h2
    by_cases hbot : s.playlist_cur ≤ 0
    · rw [scanPrevAux_stop_eq env n s h2 hbot]
      exact ⟨rfl, rfl, Or.inl rfl⟩
    · by_cases hop : env.openable (entryAt s.playlist (s.playlist_cur - 1)).filename = true
      · rw [scanPrevAux_found_eq env n s (by omega) hop]
        refine ⟨rfl, rfl, Or.inr ⟨?_, ?_⟩⟩ <;> dsimp only <;> omega
      · have e := ih { s with playlist_cur := s.playlist_cur - 1, file := none, stream := none } (by dsimp only; omega) (by dsimp only; omega)
        rw [scanPrevAux_skip_eq env n s (by omega) (by simpa using hop)]
        dsimp only at e
        obtain ⟨e1, e2, e3⟩ := e
        exact ⟨e1, e2, by omega⟩

theorem scanNextAux_acc (env : Env) (fuel : Nat) :
    ∀ (s : EngineState), (s.playlist_len - s.playlist_cur).toNat < fuel →
    s.playlist_cur < s.playlist_len →
    s.registered = s.prev_stream.toList →
    s.openFiles = s.prev_file.toList →
    (∀ i ∈ s.registered, i < s.nextStream) →
    (∀ i ∈ s.openFiles, i < s.nextFile) →
    (scanNextAux env fuel s).registered =
      (scanNextAux env fuel s).prev_stream.toList ++ (scanNextAux env fuel s).stream.toList ∧
    (scanNextAux env fuel s).openFiles =
      (scanNextAux env fuel s).prev_file.toList ++ (scanNextAux env fuel s).file.toList ∧
    (∀ i ∈ (scanNextAux env fuel s).registered, i < (scanNextAux env fuel s).nextStream) ∧
    (∀ i ∈ (scanNextAux env fuel s).openFiles, i < (scanNextAux env fuel s).nextFile) ∧
    (scanNextAux env fuel s).registered.Nodup ∧
    (scanNextAux env fuel s).openFiles.Nodup ∧
    (scanNextAux env fuel s).prev_stream = s.prev_stream ∧
    (scanNextAux env fuel s).prev_file = s.prev_file ∧
    s.nextStream ≤ (scanNextAux env fuel s).nextStream ∧
    (∀ id, (scanNextAux env fuel s).stream = some id → s.nextStream ≤ id) := by
  induction fuel with
  | zero => intro s h1 h2; omega
  | succ n ih =>
    intro s h1 h2 hr hf hbr hbf
    by_cases hend : s.playlist_len ≤ s.playlist_cur + 1
    · rw [scanNextAux_stop_eq env n s (by omega) hend]
      dsimp only
      refine ⟨by simp [hr], by simp [hf], hbr, hbf, ?_, ?_, rfl, rfl, le_refl _, by simp⟩
      · rw [hr]; cases s.prev_stream <;> simp
      · rw [hf]; cases s.prev_file <;> simp
    · by_cases hop : env.openable (entryAt s.playlist (s.playlist_cur + 1)).filename = true
      · rw [scanNextAux_found_eq env n s (by omega) hop]
        dsimp only
        have hnotmem : s.nextStream ∉ s.registered := fun hm => by
          have := hbr _ hm; omega
        have hnotmemf : s.nextFile ∉ s.openFiles := fun hm => by
          have := hbf _ hm; omega
        refine ⟨by simp [hr], by simp [hf], ?_, ?_, ?_, ?_, rfl, rfl, by omega, ?_⟩
        · intro i hi
          rcases List.mem_append.mp hi with hi | hi
          · have := hbr _ hi; omega
          · simp at hi; omega
        · intro i hi
          rcases List.mem_append.mp hi with hi | hi
          · have := hbf _ hi; omega
          · simp at hi; omega
        · rw [hr]
          cases hps : s.prev_stream with
          | none => simp
          | some p =>
            have hlt := hbr p (by rw [hr, hps]; simp)
            simp only [Option.toList_some, List.cons_append, List.nil_append,
              List.nodup_cons, List.mem_singleton, List.nodup_cons, List.not_mem_nil,
              not_false_eq_true, and_true, List.nodup_nil]
            omega
        · rw [hf]
          cases hpf : s.prev_file with
          | none => simp
          | some p =>
            have hlt := hbf p (by rw [hf, hpf]; simp)
            simp only [Option.toList_some, List.cons_append, List.nil_append,
              List.nodup_cons, List.mem_singleton, List.nodup_cons, List.not_mem_nil,
              not_false_eq_true, and_true, List.nodup_nil]
            omega
        · intro id hid
          simp at hid; omega
      · have e := ih { s with playlist_cur := s.playlist_cur + 1, file := none, stream := none } (by dsimp only; omega) (by dsimp only; omega) (by dsimp only; exact hr) (by dsimp only; exact hf) (by dsimp only; exact hbr) (by dsimp only; exact hbf)
        rw [scanNextAux_skip_eq env n s (by omega) (by simpa using hop)]
        dsimp only at e
        exact e

theorem scanPrevAux_acc (env : Env) (fuel : Nat) :
    ∀ (s : EngineState), (s.playlist_cur + 1).toNat < fuel →
    0 ≤ s.playlist_cur →
    s.registered = s.prev_stream.toList →
    s.openFiles = s.prev_file.toList →
    (∀ i ∈ s.registered, i < s.nextStream) →
    (∀ i ∈ s.openFiles, i < s.nextFile) →
    (scanPrevAux env fuel s).registered =
      (scanPrevAux env fuel s).prev_stream.toList ++ (scanPrevAux env fuel s).stream.toList ∧
    (scanPrevAux env fuel s).openFiles =
      (scanPrevAux env fuel s).prev_file.toList ++ (scanPrevAux env fuel s).file.toList ∧
    (∀ i ∈ (scanPrevAux env fuel s).registered, i < (scanPrevAux env fuel s).nextStream) ∧
    (∀ i ∈ (scanPrevAux env fuel s).openFiles, i < (scanPrevAux env fuel s).nextFile) ∧
    (scanPrevAux env fuel s).registered.Nodup ∧
    (scanPrevAux env fuel s).openFiles.Nodup ∧
    (scanPrevAux env fuel s).prev_stream = s.prev_stream ∧
    (scanPrevAux env fuel s).prev_file = s.prev_file ∧
    s.nextStream ≤ (scanPrevAux env fuel s).nextStream ∧
    (∀ id, (scanPrevAux env fuel s).stream = some id → s.nextStream ≤ id) := by
  induction fuel with
  | zero => intro s h1 h2; omega
  | succ n ih =>
    intro s h1 h2 hr hf hbr hbf
    by_cases hend : s.playlist_cur ≤ 0
    · rw [scanPrevAux_stop_eq env n s (by omega) hend]
      dsimp only
      refine ⟨by simp [hr], by simp [hf], hbr, hbf, ?_, ?_, rfl, rfl, le_refl _, by simp⟩
      · rw [hr]; cases s.prev_stream <;> simp
      · rw [hf]; cases s.prev_file <;> simp
    · by_cases hop : env.openable (entryAt s.playlist (s.playlist_cur - 1)).filename = true
      · rw [scanPrevAux_found_eq env n s (by omega) hop]
        dsimp only
        have hnotmem : s.nextStream ∉ s.registered := fun hm => by
          have := hbr _ hm; omega
        have hnotmemf : s.nextFile ∉ s.openFiles := fun hm => by
          have := hbf _ hm; omega
        refine ⟨by simp [hr], by simp [hf], ?_, ?_, ?_, ?_, rfl, rfl, by omega, ?_⟩
        · intro i hi
          rcases List.mem_append.mp hi with hi | hi
          · have := hbr _ hi; omega
          · simp at hi; omega
        · intro i hi
          rcases List.mem_append.mp hi with hi | hi
          · have := hbf _ hi; omega
          · simp at hi; omega
        · rw [hr]
          cases hps : s.prev_stream with
          | none => simp
          | some p =>
            have hlt := hbr p (by rw [hr, hps]; simp)
            simp only [Option.toList_some, List.cons_append, List.nil_append,
              List.nodup_cons, List.mem_singleton, List.nodup_cons, List.not_mem_nil,
              not_false_eq_true, and_true, List.nodup_nil]
            omega
        · rw [hf]
          cases hpf : s.prev_file with
          | none => simp
          | some p =>
            have hlt := hbf p (by rw [hf, hpf]; simp)
            simp only [Option.toList_some, List.cons_append, List.nil_append,
              List.nodup_cons, List.mem_singleton, List.nodup_cons, List.not_mem_nil,
              not_false_eq_true, and_true, List.nodup_nil]
            omega
        · intro id hid
          simp at hid; omega
      · have e := ih { s with playlist_cur := s.playlist_cur - 1, file := none, stream := none } (by dsimp only; omega) (by dsimp only; omega) (by dsimp only; exact hr) (by dsimp only; exact hf) (by dsimp only; exact hbr) (by dsimp only; exact hbf)
        rw [scanPrevAux_skip_eq env n s (by omega) (by simpa using hop)]
        dsimp only at e
        exact e

theorem files_play_next_inv (env : Env) (s : EngineState) (h : InvCore s)
    (hcur : s.playlist_cur < s.playlist_len) :
    InvCore (files_play_next env s) ∧
    (files_play_next env s).prev_stream = s.stream ∧
    (files_play_next env s).prev_file = s.file ∧
    (∀ id, (files_play_next env s).stream = some id → s.nextStream ≤ id) := by
  obtain ⟨hr, hf, hbr, hbf, hnd, hndf⟩ := h
  have hrel : releaseId s.registered s.prev_stream = s.stream.toList := by
    rw [hr]; exact releaseId_left _ _ (hr ▸ hnd)
  have hrelf : releaseId s.openFiles s.prev_file = s.file.toList := by
    rw [hf]; exact releaseId_left _ _ (hf ▸ hndf)
  have key := scanNextAux_acc env ((s.playlist_len - s.playlist_cur).toNat + 1)
    { s with registered := releaseId s.registered s.prev_stream,
             openFiles := releaseId s.openFiles s.prev_file,
             prev_stream := s.stream, prev_file := s.file }
    (by dsimp only; omega) (by dsimp only; exact hcur)
    (by dsimp only; rw [hrel])
    (by dsimp only; rw [hrelf])
    (by dsimp only; intro i hi; rw [hrel] at hi
        exact hbr i (by rw [hr]; exact List.mem_append_right _ hi))
    (by dsimp only; intro i hi; rw [hrelf] at hi
        exact hbf i (by rw [hf]; exact List.mem_append_right _ hi))
  obtain ⟨k1, k2, k3, k4, k5, k6, k7, k8, k9, k10⟩ := key
  exact ⟨⟨k1, k2, k3, k4, k5, k6⟩, k7, k8, k10⟩

theorem files_play_prev_inv (env : Env) (s : EngineState) (h : InvCore s)
    (hcur : 0 ≤ s.playlist_cur) :
    InvCore (files_play_prev env s) ∧
    (files_play_prev env s).prev_stream = s.stream ∧
    (files_play_prev env s).prev_file = s.file ∧
    (∀ id, (files_play_prev env s).stream = some id → s.nextStream ≤ id) := by
  obtain ⟨hr, hf, hbr, hbf, hnd, hndf⟩ := h
  have hrel : releaseId s.registered s.prev_stream = s.stream.toList := by
    rw [hr]; exact releaseId_left _ _ (hr ▸ hnd)
  have hrelf : releaseId s.openFiles s.prev_file = s.file.toList := by
    rw [hf]; exact releaseId_left _ _ (hf ▸ hndf)
  have key := scanPrevAux_acc env ((s.playlist_cur + 1).toNat + 1)
    { s with registered := releaseId s.registered s.prev_stream,
             openFiles := releaseId s.openFiles s.prev_file,
             prev_stream := s.stream, prev_file := s.file }
    (by dsimp only; omega) (by dsimp only; exact hcur)
    (by dsimp only; rw [hrel])
    (by dsimp only; rw [hrelf])
    (by dsimp only; intro i hi; rw [hrel] at hi
        exact hbr i (by rw [hr]; exact List.mem_append_right _ hi))
    (by dsimp only; intro i hi; rw [hrelf] at hi
        exact hbf i (by rw [hf]; exact List.mem_append_right _ hi))
  obtain ⟨k1, k2, k3, k4, k5, k6, k7, k8, k9, k10⟩ := key
  exact ⟨⟨k1, k2, k3, k4, k5, k6⟩, k7, k8, k10⟩

theorem files_next_inv (env : Env) (s : EngineState) (h : InvCore s) :
    InvCore (files_next env s) := by
  unfold files_next
  split
  case isTrue hg =>
    obtain ⟨⟨hr, hf, hbr, hbf, hnd, hndf⟩, hps, hpf, hsid⟩ :=
      files_play_next_inv env s h (by omega)
    have e1 : releaseId (files_play_next env s).registered
        (files_play_next env s).prev_stream = (files_play_next env s).stream.toList := by
      rw [hr]; exact releaseId_left _ _ (hr ▸ hnd)
    have e2 : releaseId (files_play_next env s).openFiles
        (files_play_next env s).prev_file = (files_play_next env s).file.toList := by
      rw [hf]; exact releaseId_left _ _ (hf ▸ hndf)
    refine ⟨?_, ?_, ?_, ?_, ?_, ?_⟩ <;> dsimp only
    · rw [e1]; simp
    · rw [e2]; simp
    · rw [e1]; intro i hi
      exact hbr i (by rw [hr]; exact List.mem_append_right _ hi)
    · rw [e2]; intro i hi
      exact hbf i (by rw [hf]; exact List.mem_append_right _ hi)
    · rw [e1]; cases (files_play_next env s).stream <;> simp
    · rw [e2]; cases (files_play_next env s).file <;> simp
  case isFalse => exact h

theorem files_prev_inv (env : Env) (s : EngineState) (h : InvCore s) :
    InvCore (files_prev env s) := by
  unfold files_prev
  split
  case isTrue hg =>
    obtain ⟨⟨hr, hf, hbr, hbf, hnd, hndf⟩, hps, hpf, hsid⟩ :=
      files_play_prev_inv env s h hg.2
    have e1 : releaseId (files_play_prev env s).registered
        (files_play_prev env s).prev_stream = (files_play_prev env s).stream.toList := by
      rw [hr]; exact releaseId_left _ _ (hr ▸ hnd)
    have e2 : releaseId (files_play_prev env s).openFiles
        (files_play_prev env s).prev_file = (files_play_prev env s).file.toList := by
      rw [hf]; exact releaseId_left _ _ (hf ▸ hndf)
    refine ⟨?_, ?_, ?_, ?_, ?_, ?_⟩ <;> dsimp only
    · rw [e1]; simp
    · rw [e2]; simp
    · rw [e1]; intro i hi
      exact hbr i (by rw [hr]; exact List.mem_append_right _ hi)
    · rw [e2]; intro i hi
      exact hbf i (by rw [hf]; exact List.mem_append_right _ hi)
    · rw [e1]; cases (files_play_prev env s).stream <;> simp
    · rw [e2]; cases (files_play_prev env s).file <;> simp
  case isFalse => exact h

theorem files_play_inv (env : Env) (s : EngineState) (i : Int) (h : InvCore s) :
    InvCore (files_play env s i).2 := by
  obtain ⟨hr, hf, hbr, hbf, hnd, hndf⟩ := h
  have hsp : (files_stop s).playlist = s.playlist := rfl
  have hps : (files_stop s).prev_stream = none := rfl
  have hpf0 : (files_stop s).prev_file = none := rfl
  have hstop : (files_stop s).registered = [] := files_stop_registered s hr hnd
  have hstopf : (files_stop s).openFiles = [] := files_stop_openFiles s hf hndf
  simp only [files_play]
  by_cases hlen : s.playlist_len ≤ (if i = -1 then
      (if s.playlist_cur < 0 then 0 else s.playlist_cur) else i)
  · rw [if_pos hlen]
    exact ⟨hr, hf, hbr, hbf, hnd, hndf⟩
  · rw [if_neg hlen]
    simp only [files_new_player, hsp]
    by_cases hop : env.openable (entryAt s.playlist (if i = -1 then
        (if s.playlist_cur < 0 then 0 else s.playlist_cur) else i)).filename = true
    · simp only [hop, if_true, if_pos]
      refine ⟨?_, ?_, ?_, ?_, ?_, ?_⟩ <;>
        simp [hstop, hstopf, hps, hpf0]
    · simp only [hop]
      refine ⟨?_, ?_, ?_, ?_, ?_, ?_⟩ <;>
        simp [hstop, hstopf, hps, hpf0]

theorem files_remove_inv (s : EngineState) (i : Int) (h : InvCore s) :
    InvCore (files_remove s i).2 := by
  simp only [files_remove]
  by_cases hc : s.playlist_cur = i
  · simp only [hc, if_pos, if_true]
    exact files_stop_invCore s h
  · rw [if_neg hc]
    by_cases hlt : i < s.playlist_cur
    · rw [if_pos hlt]
      exact h
    · rw [if_neg hlt]
      exact h

theorem files_flush_inv (s : EngineState) (h : InvCore s) : InvCore (files_flush s) :=
  files_stop_invCore s h

theorem files_pause_inv (s : EngineState) (h : InvCore s) : InvCore (files_pause s) := by
  unfold files_pause
  split
  · exact h
  · exact h

theorem initState_inv (cfg : Option String) : InvCore (initState cfg) := by
  refine ⟨rfl, rfl, ?_, ?_, ?_, ?_⟩ <;> simp [initState]

theorem reachable_invCore (env : Env) (s : EngineState) (h : Reachable env s) :
    InvCore s := by
  induction h with
  | init cfg => exact initState_inv cfg
  | add f _ ih => exact ih
  | remove i _ _ ih => exact files_remove_inv _ i ih
  | flush _ ih => exact files_flush_inv _ ih
  | play i _ _ ih => exact files_play_inv env _ i ih
  | pause _ ih => exact files_pause_inv _ ih
  | stop _ ih => exact files_stop_invCore _ ih
  | next _ ih => exact files_next_inv env _ ih
  | prev _ ih => exact files_prev_inv env _ ih
  | watch h1 h2 h3 _ ih => exact (files_play_next_inv env _ ih (by omega)).1

/-- Range invariant of the playlist cursor, together with agreement of
the C length counter with the actual number of entries. -/
def CurInv (s : EngineState) : Prop :=
  s.playlist_len = (s.playlist.length : Int) ∧
  (s.playlist_cur = -1 ∨ (0 ≤ s.playlist_cur ∧ s.playlist_cur < s.playlist_len))

theorem files_play_next_cur (env : Env) (s : EngineState)
    (hcur : s.playlist_cur < s.playlist_len) :
    (files_play_next env s).playlist = s.playlist ∧
    (files_play_next env s).playlist_len = s.playlist_len ∧
    ((files_play_next env s).playlist_cur = -1 ∨
      (s.playlist_cur < (files_play_next env s).playlist_cur ∧
       (files_play_next env s).playlist_cur < s.playlist_len)) := by
  have key := scanNextAux_cur env ((s.playlist_len - s.playlist_cur).toNat + 1)
    { s with registered := releaseId s.registered s.prev_stream,
             openFiles := releaseId s.openFiles s.prev_file,
             prev_stream := s.stream, prev_file := s.file }
    (by dsimp only; omega) (by dsimp only; exact hcur)
  exact key

theorem files_play_prev_cur (env : Env) (s : EngineState)
    (hcur : 0 ≤ s.playlist_cur) :
    (files_play_prev env s).playlist = s.playlist ∧
    (files_play_prev env s).playlist_len = s.playlist_len ∧
    ((files_play_prev env s).playlist_cur = -1 ∨
      (0 ≤ (files_play_prev env s).playlist_cur ∧
       (files_play_prev env s).playlist_cur < s.playlist_cur)) := by
  have key := scanPrevAux_cur env ((s.playlist_cur + 1).toNat + 1)
    { s with registered := releaseId s.registered s.prev_stream,
             openFiles := releaseId s.openFiles s.prev_file,
             prev_stream := s.stream, prev_file := s.file }
    (by dsimp only; omega) (by dsimp only; exact hcur)
  exact key

theorem length_take_append_drop (l : List Entry) (n : Nat) (h : n < l.length) :
    (l.take n ++ l.drop (n + 1)).length = l.length - 1 := by
  simp [List.length_take, List.length_drop]
  omega

theorem reachableSafe_curInv (env : Env) {s0 : EngineState} (h : ReachableSafe env s0) :
    CurInv s0 := by
  induction h with
  | init cfg => exact ⟨rfl, Or.inl rfl⟩
  | add f hR ih =>
    rename_i s
    obtain ⟨hl, hc⟩ := ih
    have e1 : (files_add env s f).2.playlist.length = s.playlist.length + 1 := by
      simp [files_add]
    have e2 : (files_add env s f).2.playlist_len = s.playlist_len + 1 := rfl
    have e3 : (files_add env s f).2.playlist_cur = s.playlist_cur := rfl
    constructor
    · rw [e1, e2]
      push_cast
      omega
    · rw [e2, e3]
      omega
  | remove i h0 hi hR ih =>
    rename_i s
    obtain ⟨hl, hc⟩ := ih
    have hlt : i.toNat < s.playlist.length := by omega
    have hlen1 : ((s.playlist.take i.toNat ++ s.playlist.drop (i.toNat + 1)).length : Int) =
        (s.playlist.length : Int) - 1 := by
      rw [length_take_append_drop s.playlist i.toNat hlt]
      omega
    simp only [files_remove]
    by_cases hcur : s.playlist_cur = i
    · simp only [hcur, if_pos, if_true]
      constructor
      · show s.playlist_len - 1 = ((s.playlist.take i.toNat ++ s.playlist.drop (i.toNat + 1)).length : Int)
        omega
      · exact Or.inl rfl
    · rw [if_neg hcur]
      by_cases hlt2 : i < s.playlist_cur
      · rw [if_pos hlt2]
        constructor
        · show s.playlist_len - 1 = ((s.playlist.take i.toNat ++ s.playlist.drop (i.toNat + 1)).length : Int)
          omega
        · show s.playlist_cur - 1 = -1 ∨ (0 ≤ s.playlist_cur - 1 ∧ s.playlist_cur - 1 < s.playlist_len - 1)
          omega
      · rw [if_neg hlt2]
        constructor
        · show s.playlist_len - 1 = ((s.playlist.take i.toNat ++ s.playlist.drop (i.toNat + 1)).length : Int)
          omega
        · show s.playlist_cur = -1 ∨ (0 ≤ s.playlist_cur ∧ s.playlist_cur < s.playlist_len - 1)
          omega
  | flush hR ih => exact ⟨rfl, Or.inl rfl⟩
  | play i hi hR ih =>
    rename_i s
    obtain ⟨hl, hc⟩ := ih
    simp only [files_play]
    by_cases hlen : s.playlist_len ≤ (if i = -1 then
        (if s.playlist_cur < 0 then 0 else s.playlist_cur) else i)
    · rw [if_pos hlen]
      exact ⟨hl, hc⟩
    · rw [if_neg hlen]
      have hj : 0 ≤ (if i = -1 then (if s.playlist_cur < 0 then 0 else s.playlist_cur) else i) := by
        by_cases hi1 : i = -1
        · simp only [hi1, if_pos, if_true]
          by_cases hneg : s.playlist_cur < 0
          · simp [hneg]
          · simp [hneg]; omega
        · rw [if_neg hi1]; omega
      have hsp : (files_stop s).playlist = s.playlist := rfl
      by_cases hop : env.openable (entryAt s.playlist (if i = -1 then
          (if s.playlist_cur < 0 then 0 else s.playlist_cur) else i)).filename = true
      · simp only [files_new_player, hsp, hop, if_true, if_pos]
        refine ⟨hl, Or.inr ⟨hj, ?_⟩⟩
        show (if i = -1 then (if s.playlist_cur < 0 then 0 else s.playlist_cur) else i) <
          s.playlist_len
        omega
      · simp only [files_new_player, hsp, hop]
        exact ⟨hl, Or.inl rfl⟩
  | pause hR ih =>
    rename_i s
    obtain ⟨hl, hc⟩ := ih
    unfold files_pause
    split
    · exact ⟨hl, hc⟩
    · exact ⟨hl, hc⟩
  | stop hR ih =>
    rename_i s
    obtain ⟨hl, hc⟩ := ih
    exact ⟨hl, Or.inl rfl⟩
  | next hR ih =>
    rename_i s
    obtain ⟨hl, hc⟩ := ih
    unfold files_next
    split
    case isTrue hg =>
      obtain ⟨e1, e2, e3⟩ := files_play_next_cur env s (by omega)
      constructor
      · show (files_play_next env s).playlist_len = ((files_play_next env s).playlist.length : Int)
        rw [e1, e2]; exact hl
      · show (files_play_next env s).playlist_cur = -1 ∨
          (0 ≤ (files_play_next env s).playlist_cur ∧
           (files_play_next env s).playlist_cur < (files_play_next env s).playlist_len)
        omega
    case isFalse => exact ⟨hl, hc⟩
  | prev hR ih =>
    rename_i s
    obtain ⟨hl, hc⟩ := ih
    unfold files_prev
    split
    case isTrue hg =>
      obtain ⟨e1, e2, e3⟩ := files_play_prev_cur env s hg.2
      constructor
      · show (files_play_prev env s).playlist_len = ((files_play_prev env s).playlist.length : Int)
        rw [e1, e2]; exact hl
      · show (files_play_prev env s).playlist_cur = -1 ∨
          (0 ≤ (files_play_prev env s).playlist_cur ∧
           (files_play_prev env s).playlist_cur < (files_play_prev env s).playlist_len)
        omega
    case isFalse => exact ⟨hl, hc⟩
  | watch h1 h2 h3 hR ih =>
    rename_i s
    obtain ⟨hl, hc⟩ := ih
    obtain ⟨e1, e2, e3⟩ := files_play_next_cur env s (by omega)
    constructor
    · rw [e1, e2]; exact hl
    · omega

/-- Environment in which every path opens and metadata never parses. -/
def envOpen : Env := ⟨fun _ => true, fun _ => none⟩

/-- Environment in which no path opens and metadata never parses. -/
def envClosed : Env := ⟨fun _ => false, fun _ => none⟩

/-- C9: files_stop in every engine state clears the playing flag, tears
down the current and previous stream/resource pairs (both stream fields
and both file fields become null, and — given the session accounting
invariant — no stream stays registered and no file stays open), resets
`playlist_cur` to -1, and is idempotent. -/
theorem claim_C9 (s : EngineState) :
    (files_stop s).is_playing = false ∧
    (files_stop s).stream = none ∧ (files_stop s).prev_stream = none ∧
    (files_stop s).file = none ∧ (files_stop s).prev_file = none ∧
    (files_stop s).playlist_cur = -1 ∧
    files_stop (files_stop s) = files_stop s ∧
    (InvCore s → (files_stop s).registered = [] ∧ (files_stop s).openFiles = []) := by
  refine ⟨rfl, rfl, rfl, rfl, rfl, rfl, rfl, ?_⟩
  intro h
  obtain ⟨hr, hf, _, _, hnd, hndf⟩ := h
  exact ⟨files_stop_registered s hr hnd, files_stop_openFiles s hf hndf⟩

/-- C9 witness: the teardown conjunct discharged at a concrete state. -/
theorem claim_C9_witness :
    (files_stop (files_play envOpen (files_add envOpen (initState none) "a").2 0).2).registered
      = [] := by
  have h := claim_C9 (files_play envOpen (files_add envOpen (initState none) "a").2 0).2
  exact (h.2.2.2.2.2.2.2 ⟨by decide, by decide, by decide, by decide, by decide, by decide⟩).1

/-- C5: files_play rejects any index at or above the playlist length
with error -1 and no state change at all; and resume-last (`index = -1`)
with no prior index (`cur < 0`) on an empty playlist also errors with no
state change. -/
theorem claim_C5 (env : Env) (s : EngineState) :
    (∀ i : Int, 0 ≤ i → s.playlist_len ≤ i → files_play env s i = (-1, s)) ∧
    (s.playlist_cur < 0 → s.playlist_len = 0 → files_play env s (-1) = (-1, s)) := by
  constructor
  · intro i h0 hl
    simp only [files_play]
    rw [if_neg (by omega : ¬ i = -1)]
    rw [if_pos hl]
  · intro hc hl
    simp [files_play, hc, hl]

/-- C5 witness: both conjuncts at concrete inputs. -/
theorem claim_C5_witness :
    files_play envOpen (initState none) 5 = (-1, initState none) ∧
    files_play envOpen (initState none) (-1) = (-1, initState none) :=
  ⟨(claim_C5 envOpen (initState none)).1 5 (by decide) (by decide),
   (claim_C5 envOpen (initState none)).2 (by decide) (by decide)⟩

/-- C4 counterexample: the claim says add of unreadable/corrupt media
skips the entry (does not append it).  With an environment in which
nothing opens and metadata parsing fails, files_add still appends the
entry (with null metadata) and returns its index 0. -/
theorem claim_C4_cex :
    (files_add envClosed (initState none) "bad.mp3").2.playlist ≠ [] ∧
    (files_add envClosed (initState none) "bad.mp3").2.playlist =
      [⟨"/var/aircat/files/bad.mp3", none⟩] ∧
    (files_add envClosed (initState none) "bad.mp3").1 = 0 := by
  refine ⟨?_, rfl, rfl⟩
  decide

/-- C4 (amended): files_add appends the entry unconditionally — also
for unreadable or corrupt media, whose metadata is simply null — and
returns the new index without ever aborting; unreadable entries are
skipped only later, during the next/prev scan. -/
theorem claim_C4 (env : Env) (s : EngineState) (f : String) :
    (files_add env s f).2.playlist =
      s.playlist ++ [⟨s.path ++ "/" ++ f, env.parse (s.path ++ "/" ++ f)⟩] ∧
    (files_add env s f).2.playlist_len = s.playlist_len + 1 ∧
    (files_add env s f).1 = s.playlist_len ∧
    (files_add env s f).2.playlist_cur = s.playlist_cur ∧
    (files_add env s f).2.stream = s.stream ∧
    (files_add env s f).2.is_playing = s.is_playing := by
  refine ⟨rfl, rfl, ?_, rfl, rfl, rfl⟩
  show s.playlist_len + 1 - 1 = s.playlist_len
  omega

/-- C3: on a playlist of length 1, the remove endpoint called with the
out-of-range index 1 replies 200 (success) and still decrements
`playlist_len` to 0 — instead of the claimed client error with no state
change (in the C this path also frees memory past the valid entries and
runs a negative-length memmove, which is undefined behavior). -/
theorem claim_C3_bug :
    (files_httpd_playlist_remove (files_add envOpen (initState none) "a").2 1).1 = 200 ∧
    (files_httpd_playlist_remove (files_add envOpen (initState none) "a").2 1).2.playlist_len
      = 0 ∧
    (files_add envOpen (initState none) "a").2.playlist_len = 1 ∧
    (files_httpd_playlist_remove (files_add envOpen (initState none) "a").2 1).2 ≠
      (files_add envOpen (initState none) "a").2 := by
  refine ⟨rfl, rfl, rfl, ?_⟩
  decide

/-- C1 counterexample: a module whose open fails (result -1) and whose
URL table is non-null still has its routes registered by the startup
loop — refuting "contribute no URL routes" — while the handle is nulled
and close is called. -/
theorem claim_C1_cex :
    (openModules [⟨"files", true, -1, true, true⟩]).routes ≠ [] ∧
    (openModules [⟨"files", true, -1, true, true⟩]).routes = ["files"] ∧
    (openModules [⟨"files", true, -1, true, true⟩]).handles = [("files", false)] ∧
    (openModules [⟨"files", true, -1, true, true⟩]).closeCalls = ["files"] := by
  refine ⟨?_, rfl, rfl, rfl⟩
  decide

/-- C1 (amended): when a module's open returns non-zero during startup,
the process continues (the loop folds on over the remaining modules),
close is called exactly when defined, the handle is left null — but the
module's URL routes, when its table is non-null, are still registered
with the HTTP dispatcher. -/
theorem claim_C1 (acc : StartupState) (m : ModuleDesc)
    (hopen : m.hasOpen = true) (hfail : m.openResult ≠ 0) :
    (openModuleStep acc m).handles = acc.handles ++ [(m.name, false)] ∧
    (openModuleStep acc m).closeCalls =
      acc.closeCalls ++ (if m.hasClose then [m.name] else []) ∧
    (openModuleStep acc m).routes =
      acc.routes ++ (if m.hasUrls then [m.name] else []) ∧
    (∀ pre post, openModules (pre ++ m :: post) =
      List.foldl openModuleStep (openModuleStep (openModules pre) m) post) := by
  refine ⟨?_, ?_, ?_, ?_⟩
  · simp [openModuleStep, hopen, hfail]
  · simp [openModuleStep, hopen, hfail]
  · simp [openModuleStep, hopen, hfail]
  · intro pre post
    simp [openModules, List.foldl_append]

/-- C1 witness: the amended statement at a concrete failing module. -/
theorem claim_C1_witness :
    (openModuleStep ⟨[], [], []⟩ ⟨"files", true, -1, true, true⟩).handles
      = [("files", false)] ∧
    openModules [⟨"files", true, -1, true, true⟩] =
      List.foldl openModuleStep
        (openModuleStep (openModules []) ⟨"files", true, -1, true, true⟩) [] := by
  have h := claim_C1 ⟨[], [], []⟩ ⟨"files", true, -1, true, true⟩ rfl (by decide)
  exact ⟨h.1.trans (by decide), h.2.2.2 [] []⟩

/-- State used by the C2 counterexample: add one entry, play it, then
remove index 1 — which is out of range, accepted by the HTTP guard
(`idx >= 0`), and not bounds-checked by files_remove. -/
def c2bad : EngineState :=
  (files_remove (files_play envOpen (files_add envOpen (initState none) "a").2 0).2 1).2

/-- C2 counterexample: a state reachable through add, play and a
non-negative (but out-of-range) remove in which `cur = 0` while the
length counter is 0 — violating `cur ∈ {-1} ∪ [0, len)`. -/
theorem claim_C2_cex :
    Reachable envOpen c2bad ∧
    ¬(c2bad.playlist_cur = -1 ∨
      (0 ≤ c2bad.playlist_cur ∧ c2bad.playlist_cur < c2bad.playlist_len)) := by
  constructor
  · exact Reachable.remove 1 (by decide)
      (Reachable.play 0 (by decide) (Reachable.add "a" (Reachable.init none)))
  · decide

/-- C2 (amended): for every sequence of engine operations in which each
remove index is within `[0, playlist_len)`, the cursor is always -1 or
within `[0, playlist_len)`. -/
theorem claim_C2 (env : Env) (s : EngineState) (h : ReachableSafe env s) :
    s.playlist_cur = -1 ∨ (0 ≤ s.playlist_cur ∧ s.playlist_cur < s.playlist_len) :=
  (reachableSafe_curInv env h).2

/-- C2 witness: the amended invariant at a concrete reachable state. -/
theorem claim_C2_witness :
    (files_play envOpen (files_add envOpen (initState none) "a").2 0).2.playlist_cur = -1 ∨
    (0 ≤ (files_play envOpen (files_add envOpen (initState none) "a").2 0).2.playlist_cur ∧
     (files_play envOpen (files_add envOpen (initState none) "a").2 0).2.playlist_cur <
       (files_play envOpen (files_add envOpen (initState none) "a").2 0).2.playlist_len) :=
  claim_C2 envOpen _
    (ReachableSafe.play 0 (by decide) (ReachableSafe.add "a" (ReachableSafe.init none)))

/-- C10: for an in-range index whose entry cannot be opened, files_play
returns -1 and leaves the engine fully stopped — cursor -1, no current
or previous stream or file, playing flag clear, nothing registered at
the output and no file left open — although the playlist itself is
untouched: the prior playback is torn down even though the requested
one never started. -/
theorem claim_C10 (env : Env) (s : EngineState) (i : Int)
    (h0 : 0 ≤ i) (hl : i < s.playlist_len)
    (hop : env.openable (entryAt s.playlist i).filename = false)
    (hr : s.registered = s.prev_stream.toList ++ s.stream.toList)
    (hf : s.openFiles = s.prev_file.toList ++ s.file.toList)
    (hnd : s.registered.Nodup) (hndf : s.openFiles.Nodup) :
    (files_play env s i).1 = -1 ∧
    (files_play env s i).2.playlist_cur = -1 ∧
    (files_play env s i).2.stream = none ∧
    (files_play env s i).2.prev_stream = none ∧
    (files_play env s i).2.file = none ∧
    (files_play env s i).2.prev_file = none ∧
    (files_play env s i).2.is_playing = false ∧
    (files_play env s i).2.registered = [] ∧
    (files_play env s i).2.openFiles = [] ∧
    (files_play env s i).2.playlist = s.playlist ∧
    (files_play env s i).2.playlist_len = s.playlist_len := by
  have hstop := files_stop_registered s hr hnd
  have hstopf := files_stop_openFiles s hf hndf
  have hsp : (files_stop s).playlist = s.playlist := rfl
  simp only [files_play]
  rw [if_neg (by omega : ¬ i = -1)]
  rw [if_neg (by omega : ¬ s.playlist_len ≤ i)]
  simp only [files_new_player, hsp, hop, Bool.false_eq_true, if_false]
  have hne : ¬ ((-1 : Int) = 0) := by norm_num
  rw [if_neg hne]
  exact ⟨rfl, rfl, rfl, rfl, rfl, rfl, rfl, hstop, hstopf, rfl, rfl⟩

/-- C10 witness: playing the single (unopenable) entry of a playlist. -/
theorem claim_C10_witness :
    (files_play envClosed (files_add envClosed (initState none) "a").2 0).1 = -1 ∧
    (files_play envClosed (files_add envClosed (initState none) "a").2 0).2.playlist_cur
      = -1 := by
  have h := claim_C10 envClosed (files_add envClosed (initState none) "a").2 0
    (by decide) (by decide) (by decide) (by decide) (by decide) (by decide) (by decide)
  exact ⟨h.1, h.2.1⟩

/-- C6: next() at the last playlist index and prev() at index 0 both
land the engine in STOPPED — cursor -1, no current stream or file and
an empty previous slot; and while scanning, both directions skip an
entry whose resource fails to open, continuing with the next candidate
(the loop recurses instead of aborting). -/
theorem claim_C6 (env : Env) (s : EngineState) (n : Nat) :
    (s.playlist_cur = s.playlist_len - 1 → s.playlist_cur ≠ -1 →
      (files_next env s).playlist_cur = -1 ∧ (files_next env s).stream = none ∧
      (files_next env s).file = none ∧ (files_next env s).prev_stream = none ∧
      (files_next env s).prev_file = none) ∧
    (s.playlist_cur = 0 →
      (files_prev env s).playlist_cur = -1 ∧ (files_prev env s).stream = none ∧
      (files_prev env s).file = none ∧ (files_prev env s).prev_stream = none ∧
      (files_prev env s).prev_file = none) ∧
    (s.playlist_cur + 1 < s.playlist_len →
      env.openable (entryAt s.playlist (s.playlist_cur + 1)).filename = false →
      scanNextAux env (n + 1) s =
        scanNextAux env n { s with playlist_cur := s.playlist_cur + 1,
                                   file := none, stream := none }) ∧
    (1 ≤ s.playlist_cur →
      env.openable (entryAt s.playlist (s.playlist_cur - 1)).filename = false →
      scanPrevAux env (n + 1) s =
        scanPrevAux env n { s with playlist_cur := s.playlist_cur - 1,
                                   file := none, stream := none }) := by
  refine ⟨?_, ?_, ?_, ?_⟩
  · intro h1 h2
    have hg : s.playlist_cur ≠ -1 ∧ s.playlist_cur + 1 ≤ s.playlist_len := ⟨h2, by omega⟩
    unfold files_next
    rw [if_pos hg]
    have e : files_play_next env s =
        { s with registered := releaseId s.registered s.prev_stream,
                 openFiles := releaseId s.openFiles s.prev_file,
                 prev_stream := s.stream, prev_file := s.file,
                 playlist_cur := -1, stream := none, file := none } := by
      show scanNextAux env _ _ = _
      rw [scanNextAux_stop_eq env _ _ (by dsimp only; omega) (by dsimp only; omega)]
    rw [e]
    exact ⟨rfl, rfl, rfl, rfl, rfl⟩
  · intro h1
    have hg : s.playlist_cur ≠ -1 ∧ 0 ≤ s.playlist_cur := ⟨by omega, by omega⟩
    unfold files_prev
    rw [if_pos hg]
    have e : files_play_prev env s =
        { s with registered := releaseId s.registered s.prev_stream,
                 openFiles := releaseId s.openFiles s.prev_file,
                 prev_stream := s.stream, prev_file := s.file,
                 playlist_cur := -1, stream := none, file := none } := by
      show scanPrevAux env _ _ = _
      rw [scanPrevAux_stop_eq env _ _ (by dsimp only; omega) (by dsimp only; omega)]
    rw [e]
    exact ⟨rfl, rfl, rfl, rfl, rfl⟩
  · intro h1 hop
    exact scanNextAux_skip_eq env n s h1 hop
  · intro h1 hop
    exact scanPrevAux_skip_eq env n s h1 hop

/-- State used by the C6 witness for the skip conjuncts: three entries
with the cursor on the first (resp. second). -/
def c6skipA : EngineState :=
  { registered := [], openFiles := [], nextStream := 0, nextFile := 0,
    file := none, stream := none, prev_file := none, prev_stream := none,
    is_playing := false,
    playlist := [⟨"a", none⟩, ⟨"b", none⟩, ⟨"c", none⟩],
    playlist_len := 3, playlist_cur := 0, path := "" }

/-- Cursor-on-index-1 variant of `c6skipA`. -/
def c6skipB : EngineState :=
  { c6skipA with playlist_cur := 1 }

/-- C6 witness: all four conjuncts at concrete states. -/
theorem claim_C6_witness :
    (files_next envOpen (files_play envOpen (files_add envOpen (initState none) "a").2 0).2).playlist_cur = -1 ∧
    (files_prev envOpen (files_play envOpen (files_add envOpen (initState none) "a").2 0).2).playlist_cur = -1 ∧
    scanNextAux envClosed 1 c6skipA =
      scanNextAux envClosed 0 { c6skipA with playlist_cur := 1, file := none, stream := none } ∧
    scanPrevAux envClosed 1 c6skipB =
      scanPrevAux envClosed 0 { c6skipB with playlist_cur := 0, file := none, stream := none } := by
  refine ⟨?_, ?_, ?_, ?_⟩
  · exact ((claim_C6 envOpen
      (files_play envOpen (files_add envOpen (initState none) "a").2 0).2 0).1
      (by decide) (by decide)).1
  · exact ((claim_C6 envOpen
      (files_play envOpen (files_add envOpen (initState none) "a").2 0).2 0).2.1
      (by decide)).1
  · exact (claim_C6 envClosed c6skipA 0).2.2.1 (by decide) (by decide)
  · exact (claim_C6 envClosed c6skipB 0).2.2.2 (by decide) (by decide)

theorem getD_take_drop (l : List Entry) (nk k : Nat) (d : Entry) (hnk : nk < k) :
    (l.take nk ++ l.drop (nk + 1)).getD (k - 1) d = l.getD k d := by
  rcases le_or_lt l.length nk with hl | hl
  · rw [List.take_of_length_le hl, List.drop_eq_nil_of_le (by omega), List.append_nil]
    rw [List.getD_eq_default, List.getD_eq_default] <;> omega
  · rw [List.getD_eq_getElem?_getD, List.getD_eq_getElem?_getD]
    have hlen2 : (l.take nk).length = nk := by
      rw [List.length_take]
      omega
    have hge : (l.take nk).length ≤ k - 1 := by
      rw [hlen2]
      omega
    rw [List.getElem?_append_right hge, List.getElem?_drop, hlen2]
    have he : nk + 1 + (k - 1 - nk) = k := by omega
    rw [he]

/-- C7: removing the current in-range index is the same as stopping and
then deleting that entry (one fewer entry afterwards); removing an
in-range index strictly below the current one shifts the cursor down by
one while the entry it denotes — and the playing stream/file — are
unchanged. -/
theorem claim_C7 (s : EngineState) (i : Int) (h0 : 0 ≤ i)
    (hlen : s.playlist_len = (s.playlist.length : Int)) :
    (i = s.playlist_cur → i < s.playlist_len →
      files_remove s i = (0, { files_stop s with
        playlist := (files_stop s).playlist.take i.toNat ++
          (files_stop s).playlist.drop (i.toNat + 1),
        playlist_len := (files_stop s).playlist_len - 1 }) ∧
      ((files_remove s i).2.playlist.length : Int) = (s.playlist.length : Int) - 1) ∧
    (i < s.playlist_cur → s.playlist_cur < s.playlist_len →
      (files_remove s i).2.playlist_cur = s.playlist_cur - 1 ∧
      entryAt (files_remove s i).2.playlist ((files_remove s i).2.playlist_cur) =
        entryAt s.playlist s.playlist_cur ∧
      (files_remove s i).2.stream = s.stream ∧
      (files_remove s i).2.file = s.file ∧
      (files_remove s i).2.is_playing = s.is_playing ∧
      (files_remove s i).1 = 0) := by
  constructor
  · intro hc hlt
    have hlt2 : i.toNat < s.playlist.length := by omega
    constructor
    · simp only [files_remove]
      rw [if_pos hc.symm]
    · simp only [files_remove]
      rw [if_pos hc.symm]
      show (((s.playlist.take i.toNat ++
        s.playlist.drop (i.toNat + 1)).length : Nat) : Int) =
        (s.playlist.length : Int) - 1
      rw [length_take_append_drop _ _ hlt2]
      omega
  · intro h1 h2
    have hne : ¬ (s.playlist_cur = i) := by omega
    simp only [files_remove]
    rw [if_neg hne, if_pos h1]
    refine ⟨rfl, ?_, rfl, rfl, rfl, trivial⟩
    show (s.playlist.take i.toNat ++ s.playlist.drop (i.toNat + 1)).getD
      (s.playlist_cur - 1).toNat ⟨"", none⟩ = s.playlist.getD s.playlist_cur.toNat ⟨"", none⟩
    have e : (s.playlist_cur - 1).toNat = s.playlist_cur.toNat - 1 := by omega
    rw [e]
    exact getD_take_drop s.playlist i.toNat s.playlist_cur.toNat ⟨"", none⟩ (by omega)

/-- C7 witness: both conjuncts at concrete states — remove the playing
index 0 of a singleton, and remove index 0 below the playing index 1 of
a pair. -/
theorem claim_C7_witness :
    ((files_remove (files_play envOpen (files_add envOpen (initState none) "a").2 0).2 0).2.playlist.length : Int) =
      ((files_play envOpen (files_add envOpen (initState none) "a").2 0).2.playlist.length : Int) - 1 ∧
    (files_remove (files_play envOpen (files_add envOpen (files_add envOpen (initState none) "a").2 "b").2 1).2 0).2.playlist_cur =
      (files_play envOpen (files_add envOpen (files_add envOpen (initState none) "a").2 "b").2 1).2.playlist_cur - 1 := by
  constructor
  · exact ((claim_C7 (files_play envOpen (files_add envOpen (initState none) "a").2 0).2 0
      (by decide) (by decide)).1 (by decide) (by decide)).2
  · exact ((claim_C7
      (files_play envOpen (files_add envOpen (files_add envOpen (initState none) "a").2 "b").2 1).2 0
      (by decide) (by decide)).2 (by decide) (by decide)).1

/-- C8: in every reachable engine state the streams registered at the
output are exactly the (at most one) previous and the (at most one)
current stream, likewise for open files — so no superseded pair is ever
leaked — and whenever a transition (files_play_next, as run by the
watcher or by next()) supersedes the current stream while a stale
previous stream exists, that previous stream is no longer registered
after the transition, and the previous slot now holds the old current
stream: the stale pair is released before being overwritten. -/
theorem claim_C8 (env : Env) (s : EngineState) (h : Reachable env s) :
    s.registered = s.prev_stream.toList ++ s.stream.toList ∧
    s.openFiles = s.prev_file.toList ++ s.file.toList ∧
    s.registered.Nodup ∧ s.openFiles.Nodup ∧
    (∀ p, s.prev_stream = some p → s.playlist_cur < s.playlist_len →
      p ∉ (files_play_next env s).registered ∧
      (files_play_next env s).prev_stream = s.stream ∧
      (files_play_next env s).prev_file = s.file) := by
  obtain ⟨hr, hf, hbr, hbf, hnd, hndf⟩ := reachable_invCore env s h
  refine ⟨hr, hf, hnd, hndf, ?_⟩
  intro p hp hcur
  obtain ⟨⟨kr, kf, kbr, kbf, knd, kndf⟩, kps, kpf, ksid⟩ :=
    files_play_next_inv env s ⟨hr, hf, hbr, hbf, hnd, hndf⟩ hcur
  refine ⟨?_, kps, kpf⟩
  intro hmem
  rw [kr, kps] at hmem
  have hpb : p < s.nextStream :=
    hbr p (by rw [hr, hp]; exact List.mem_append_left _ (by simp))
  rcases List.mem_append.mp hmem with hm | hm
  · cases hs : s.stream with
    | none => rw [hs] at hm; simp at hm
    | some q =>
      rw [hs] at hm
      simp at hm
      rw [hr, hp, hs] at hnd
      simp [hm] at hnd
  · cases ht : (files_play_next env s).stream with
    | none => rw [ht] at hm; simp at hm
    | some q =>
      rw [ht] at hm
      simp at hm
      have := ksid q ht
      omega

/-- State used by the C8 witness: two entries, playing index 0, then a
watcher advance — leaving stream 1 current and the superseded stream 0
retained in the previous slot. -/
def c8state : EngineState :=
  files_play_next envOpen
    (files_play envOpen (files_add envOpen (files_add envOpen (initState none) "a").2 "b").2 0).2

/-- C8 witness: the invariant and the release property at `c8state`. -/
theorem claim_C8_witness :
    c8state.registered = c8state.prev_stream.toList ++ c8state.stream.toList ∧
    (0 : Nat) ∉ (files_play_next envOpen c8state).registered ∧
    (files_play_next envOpen c8state).prev_stream = c8state.stream := by
  have hR : Reachable envOpen c8state :=
    Reachable.watch (by decide) (by decide) (by decide)
      (Reachable.play 0 (by decide)
        (Reachable.add "b" (Reachable.add "a" (Reachable.init none))))
  have h := claim_C8 envOpen c8state hR
  exact ⟨h.1, (h.2.2.2.2 0 (by decide) (by decide)).1, (h.2.2.2.2 0 (by decide) (by decide)).2.1⟩

end AirCat
